import Mathlib

/-!
Shallow embedding of the WarrantyVault AI service document-extraction
pipeline (`src/ai-service/app.py`).

Modelling conventions:
* Python strings are modelled as `List Char`; Python text values that are
  only used as dictionary keys stay `String`.
* Python floats are modelled as exact rationals (`ℚ`); `round(x, 4)` is
  modelled as exact round-half-to-even to four decimal places, which agrees
  with CPython on inputs whose values are exactly representable.
* External backends (PaddleOCR, pdf2image, PIL, the Donut processor and
  model) are oracle parameters; a backend call that may raise is an
  `Except String` value.  The fallible device-placement step
  `donut_model.to("cuda")` inside `load_donut_model`'s `try` is modelled by
  a `cuda` availability flag and a placement oracle; the two per-request
  tensor `.to("cuda")` moves inside `extract_structured_with_donut` are
  collapsed into the adjacent oracle steps (a failure there is
  indistinguishable from a failure of that step).
-/

/-- One recognized OCR line, as consumed from `result[0]`:
`line[1][0]` is the text, `line[1][1]` the confidence score. -/
structure RecLine where
  text : List Char
  conf : ℚ
  deriving DecidableEq, Repr

/-- The value returned by `extract_text_with_paddleocr`:
`{"text": ..., "confidence": ...}`. -/
structure TextResult where
  text : List Char
  confidence : ℚ
  deriving DecidableEq, Repr

/-- Round-half-to-even of a rational to an integer; this is what CPython's
`round` computes on a float whose value is the given rational, whenever the
mathematical result is exactly representable. -/
def rheInt (q : ℚ) : ℤ :=
  if q - ⌊q⌋ < 1/2 then ⌊q⌋
  else if 1/2 < q - ⌊q⌋ then ⌊q⌋ + 1
  else if ⌊q⌋ % 2 = 0 then ⌊q⌋ else ⌊q⌋ + 1

/-- Python `round(q, 4)` on exact values. -/
def pyRound4 (q : ℚ) : ℚ := (rheInt (q * 10000) : ℚ) / 10000

/-- Python `"\n".join`. -/
def joinNL : List (List Char) → List Char
  | [] => []
  | [l] => l
  | l :: l' :: ls => l ++ '\n' :: joinNL (l' :: ls)

/-- Split a character list at newline characters; `(splitNL s).length` is the
number of newline-delimited segments of `s`. -/
def splitNL : List Char → List (List Char)
  | [] => [[]]
  | c :: cs =>
    if c = '\n' then [] :: splitNL cs
    else
      match splitNL cs with
      | [] => [[c]]
      | s :: rest => (c :: s) :: rest

/-- `extract_text_with_paddleocr` (app.py:86-123).  The OCR backend's raw
return value `paddle_ocr.ocr(...)` is the `result` parameter: a list of
per-image entries, each either `None` or a list of lines.  The guard
`if not result or not result[0]` covers an empty list, a `None` first entry
and an empty first entry; otherwise the loop reads `result[0]` only, joins
the texts with newlines, and returns the mean confidence rounded to four
decimal places. -/
def extract_text_with_paddleocr (result : List (Option (List RecLine))) : TextResult :=
  match result with
  | [] => ⟨[], 0⟩
  | r0 :: _ =>
    match r0 with
    | none => ⟨[], 0⟩
    | some [] => ⟨[], 0⟩
    | some lines =>
      let extracted_lines := lines.map RecLine.text
      let confidence_scores := lines.map RecLine.conf
      let full_text := joinNL extracted_lines
      let avg_confidence :=
        if confidence_scores ≠ [] then confidence_scores.sum / confidence_scores.length
        else 0
      ⟨full_text, pyRound4 avg_confidence⟩

theorem rheInt_nonneg {q : ℚ} (h : 0 ≤ q) : 0 ≤ rheInt q := by
  have hf : (0 : ℤ) ≤ ⌊q⌋ := Int.le_floor.mpr (by exact_mod_cast h)
  unfold rheInt
  split
  · exact hf
  · split
    · omega
    · split <;> omega

theorem rheInt_le {q : ℚ} {n : ℤ} (h : q ≤ n) : rheInt q ≤ n := by
  have hfl : ⌊q⌋ ≤ n := Int.floor_le_floor h |>.trans (by simp)
  unfold rheInt
  split
  · exact hfl
  · rename_i h1
    push_neg at h1
    have hlt : (⌊q⌋ : ℚ) < q := by
      have h0 : (0 : ℚ) < 1/2 := by norm_num
      nlinarith [Int.floor_le q]
    have hfn : ⌊q⌋ < n := by exact_mod_cast hlt.trans_le h
    split
    · omega
    · split <;> omega

theorem pyRound4_nonneg {q : ℚ} (h : 0 ≤ q) : 0 ≤ pyRound4 q := by
  have : (0 : ℤ) ≤ rheInt (q * 10000) := rheInt_nonneg (by positivity)
  unfold pyRound4
  positivity

theorem pyRound4_le_one {q : ℚ} (h : q ≤ 1) : pyRound4 q ≤ 1 := by
  have h10 : q * 10000 ≤ ((10000 : ℤ) : ℚ) := by push_cast; nlinarith
  have hle : rheInt (q * 10000) ≤ 10000 := rheInt_le h10
  unfold pyRound4
  rw [div_le_one (by norm_num)]
  exact_mod_cast hle

theorem splitNL_cons (c : Char) (cs : List Char) :
    splitNL (c :: cs) =
      if c = '\n' then [] :: splitNL cs
      else
        match splitNL cs with
        | [] => [[c]]
        | s :: rest => (c :: s) :: rest := rfl

theorem splitNL_ne_nil (s : List Char) : splitNL s ≠ [] := by
  cases s with
  | nil => simp [splitNL]
  | cons c cs =>
    rw [splitNL_cons]
    split
    · simp
    · split <;> simp

theorem splitNL_no_nl (l : List Char) (h : '\n' ∉ l) : splitNL l = [l] := by
  induction l with
  | nil => rfl
  | cons c cs ih =>
    have hc : c ≠ '\n' := fun hh => h (hh ▸ List.mem_cons_self c cs)
    have hcs : '\n' ∉ cs := fun hh => h (List.mem_cons_of_mem c hh)
    rw [splitNL_cons, if_neg hc, ih hcs]

theorem splitNL_append (l r : List Char) (h : '\n' ∉ l) :
    splitNL (l ++ '\n' :: r) = l :: splitNL r := by
  induction l with
  | nil => simp [splitNL]
  | cons c cs ih =>
    have hc : c ≠ '\n' := fun hh => h (hh ▸ List.mem_cons_self c cs)
    have hcs : '\n' ∉ cs := fun hh => h (List.mem_cons_of_mem c hh)
    rw [List.cons_append, splitNL_cons, if_neg hc, ih hcs]

theorem splitNL_joinNL (ls : List (List Char)) (hne : ls ≠ [])
    (h : ∀ l ∈ ls, '\n' ∉ l) : (splitNL (joinNL ls)).length = ls.length := by
  induction ls with
  | nil => exact absurd rfl hne
  | cons l ls ih =>
    cases ls with
    | nil =>
      simp only [joinNL]
      rw [splitNL_no_nl l (h l (List.mem_cons_self l []))]
    | cons l' ls' =>
      have hjoin : joinNL (l :: l' :: ls') = l ++ '\n' :: joinNL (l' :: ls') := rfl
      rw [hjoin, splitNL_append l _ (h l (List.mem_cons_self _ _))]
      have := ih (by simp) (fun x hx => h x (List.mem_cons_of_mem l hx))
      simp [this]

theorem mean_mem_unit_interval (l : List ℚ) (hne : l ≠ [])
    (h : ∀ x ∈ l, 0 ≤ x ∧ x ≤ 1) :
    0 ≤ l.sum / l.length ∧ l.sum / l.length ≤ 1 := by
  have hlen : (0 : ℚ) < l.length := by
    have : l.length ≠ 0 := fun hh => hne (List.length_eq_zero.mp hh)
    positivity
  constructor
  · exact div_nonneg (List.sum_nonneg fun x hx => (h x hx).1) hlen.le
  · rw [div_le_one hlen]
    have := List.sum_le_card_nsmul l 1 fun x hx => (h x hx).2
    simpa using this

/-- C4: an OCR backend returning zero detected lines (empty result list, a
`None` first entry or an empty first entry) yields exactly `text = ""` and
`confidence = 0.0`, with no error raised. -/
theorem C4_empty_ocr (result : List (Option (List RecLine)))
    (h : result = [] ∨ result.head? = some none ∨ result.head? = some (some [])) :
    extract_text_with_paddleocr result = ⟨[], 0⟩ := by
  rcases h with h | h | h
  · subst h; rfl
  · cases result with
    | nil => simp at h
    | cons r0 rest =>
      simp only [List.head?_cons, Option.some.injEq] at h
      subst h; rfl
  · cases result with
    | nil => simp at h
    | cons r0 rest =>
      simp only [List.head?_cons, Option.some.injEq] at h
      subst h; rfl

/-- Witness for C4 at a concrete input. -/
theorem C4_empty_ocr_witness :
    extract_text_with_paddleocr [none] = ⟨[], 0⟩ :=
  C4_empty_ocr [none] (Or.inr (Or.inl rfl))

theorem rheInt_small {q : ℚ} (h0 : 0 ≤ q) (h : q < 1/2) : rheInt q = 0 := by
  have hfloor : ⌊q⌋ = 0 := by
    rw [Int.floor_eq_iff]
    constructor
    · exact_mod_cast h0
    · push_cast
      linarith
  rw [rheInt, hfloor]
  rw [if_pos (by push_cast; linarith)]

theorem pyRound4_small {q : ℚ} (h0 : 0 ≤ q) (h : q * 10000 < 1/2) : pyRound4 q = 0 := by
  rw [pyRound4, rheInt_small (by positivity) h]
  norm_num

/-- C5 as written is false on the code: the returned confidence is the mean
rounded to four decimal places, not the mean itself, and a line text
containing a newline breaks the claimed segment count.  Concretely, one
detected line with text `"a\nb"` and confidence `1/131072` (an exactly
representable float) yields confidence `0.0 ≠ 1/131072` and two
newline-delimited segments for one line. -/
theorem C5_cex :
    (extract_text_with_paddleocr [some [⟨['a', '\n', 'b'], 1/131072⟩]]).confidence = 0 ∧
    (1 : ℚ)/131072 ≠ 0 ∧
    (splitNL (extract_text_with_paddleocr [some [⟨['a', '\n', 'b'], 1/131072⟩]]).text).length = 2 := by
  refine ⟨?_, by norm_num, ?_⟩
  · show pyRound4 _ = 0
    exact pyRound4_small (by norm_num) (by norm_num)
  · show (splitNL (joinNL [['a', '\n', 'b']])).length = 2
    decide

/-- C5 (amended): for at least one detected line, each with confidence in
`[0,1]`, the returned confidence is the arithmetic mean of the line
confidences rounded half-to-even to four decimal places, still in `[0,1]`;
the text is the line texts joined with newline separators in detection
order, and when no line text itself contains a newline the text has exactly
as many newline-delimited segments as detected lines. -/
theorem C5_recognize_amended (lines : List RecLine) (rest : List (Option (List RecLine)))
    (hne : lines ≠ [])
    (hconf : ∀ l ∈ lines, 0 ≤ l.conf ∧ l.conf ≤ 1) :
    (extract_text_with_paddleocr (some lines :: rest)).confidence =
        pyRound4 ((lines.map RecLine.conf).sum / (lines.map RecLine.conf).length) ∧
    0 ≤ (extract_text_with_paddleocr (some lines :: rest)).confidence ∧
    (extract_text_with_paddleocr (some lines :: rest)).confidence ≤ 1 ∧
    (extract_text_with_paddleocr (some lines :: rest)).text =
        joinNL (lines.map RecLine.text) ∧
    ((∀ l ∈ lines, '\n' ∉ l.text) →
      (splitNL (extract_text_with_paddleocr (some lines :: rest)).text).length =
        lines.length) := by
  obtain ⟨c0, cs, rfl⟩ : ∃ c0 cs, lines = c0 :: cs := by
    cases lines with
    | nil => exact absurd rfl hne
    | cons a as => exact ⟨a, as, rfl⟩
  have hmap_ne : (c0 :: cs).map RecLine.conf ≠ [] := by simp
  have hrun : extract_text_with_paddleocr (some (c0 :: cs) :: rest) =
      ⟨joinNL ((c0 :: cs).map RecLine.text),
       pyRound4 (((c0 :: cs).map RecLine.conf).sum / ((c0 :: cs).map RecLine.conf).length)⟩ := by
    simp [extract_text_with_paddleocr, hmap_ne]
  have hmean := mean_mem_unit_interval ((c0 :: cs).map RecLine.conf) hmap_ne
    (by
      intro x hx
      obtain ⟨l, hl, rfl⟩ := List.mem_map.mp hx
      exact hconf l hl)
  refine ⟨by rw [hrun], ?_, ?_, by rw [hrun], ?_⟩
  · rw [hrun]
    exact pyRound4_nonneg hmean.1
  · rw [hrun]
    exact pyRound4_le_one hmean.2
  · intro hnl
    rw [hrun]
    have := splitNL_joinNL ((c0 :: cs).map RecLine.text) (by simp)
      (by
        intro x hx
        obtain ⟨l, hl, rfl⟩ := List.mem_map.mp hx
        exact hnl l hl)
    simpa using this

/-- Witness for C5 (amended) at a concrete input. -/
theorem C5_recognize_amended_witness :
    (extract_text_with_paddleocr [some [⟨['h', 'i'], 1/2⟩, ⟨['y', 'o'], 1⟩]]).confidence =
        pyRound4 (([⟨['h', 'i'], 1/2⟩, ⟨['y', 'o'], (1 : ℚ)⟩].map RecLine.conf).sum /
          ([(⟨['h', 'i'], 1/2⟩ : RecLine), ⟨['y', 'o'], 1⟩].map RecLine.conf).length) ∧
    0 ≤ (extract_text_with_paddleocr [some [⟨['h', 'i'], 1/2⟩, ⟨['y', 'o'], 1⟩]]).confidence ∧
    (extract_text_with_paddleocr [some [⟨['h', 'i'], 1/2⟩, ⟨['y', 'o'], 1⟩]]).confidence ≤ 1 ∧
    (extract_text_with_paddleocr [some [⟨['h', 'i'], 1/2⟩, ⟨['y', 'o'], 1⟩]]).text =
        joinNL ([(⟨['h', 'i'], 1/2⟩ : RecLine), ⟨['y', 'o'], 1⟩].map RecLine.text) ∧
    ((∀ l ∈ [(⟨['h', 'i'], 1/2⟩ : RecLine), ⟨['y', 'o'], 1⟩], '\n' ∉ l.text) →
      (splitNL (extract_text_with_paddleocr
          [some [⟨['h', 'i'], 1/2⟩, ⟨['y', 'o'], 1⟩]]).text).length =
        ([(⟨['h', 'i'], 1/2⟩ : RecLine), ⟨['y', 'o'], 1⟩]).length) :=
  C5_recognize_amended [⟨['h', 'i'], 1/2⟩, ⟨['y', 'o'], 1⟩] [] (by simp)
    (by intro l hl; fin_cases hl <;> norm_num)

/-! ## Page rasterization (pdf2image / PIL) -/

/-- A page of the underlying PDF document, prior to rendering. -/
structure RawPage where
  id : ℕ
  deriving DecidableEq, Repr

/-- A decoded in-memory page image; `dpi` records the resolution the
renderer was asked for. -/
structure PageImage where
  page : RawPage
  dpi : ℕ
  deriving DecidableEq, Repr

/-- `pdf2image.convert_from_bytes(pdf_bytes, dpi=..., first_page=...,
last_page=...)`.  The byte stream is modelled by what the backend would
parse it to: an error for an invalid PDF, or the document's page list.
A valid selection renders the pages `first_page..last_page` at `dpi`. -/
def convert_from_bytes (doc : Except String (List RawPage))
    (dpi first_page last_page : ℕ) : Except String (List PageImage) :=
  match doc with
  | .error e => .error e
  | .ok pages =>
      .ok (((pages.drop (first_page - 1)).take (last_page - first_page + 1)).map
        fun rp => ⟨rp, dpi⟩)

/-- `convert_pdf_to_image` (app.py:76-83): first page only at 300 DPI,
re-raising backend errors; `images[0] if images else None`. -/
def convert_pdf_to_image (doc : Except String (List RawPage)) :
    Except String (Option PageImage) :=
  match convert_from_bytes doc 300 1 1 with
  | .error e => .error e
  | .ok images => .ok images.head?

/-! ## Donut lazy singleton -/

structure Processor where
  id : ℕ
  deriving DecidableEq, Repr

structure DonutModel where
  id : ℕ
  deriving DecidableEq, Repr

/-- The module-level globals `donut_processor` and `donut_model`
(app.py:46-47), both `None` at process start. -/
structure DonutState where
  donut_processor : Option Processor
  donut_model : Option DonutModel
  deriving DecidableEq, Repr

/-- `load_donut_model` (app.py:53-73).  `lp` and `lm` are what the two
`from_pretrained` calls would produce on this attempt, `cuda` is
`torch.cuda.is_available()`, and `place m` is the outcome of the in-place
device move `donut_model.to("cuda")` (app.py:64-65), which runs inside the
same `try`.  The Python body assigns the globals one at a time, so a
failure of the second load leaves the first assignment in place, and a
failure of the device move leaves BOTH assignments in place; any failure is
re-raised. -/
def load_donut_model (lp : Except String Processor) (lm : Except String DonutModel)
    (cuda : Bool) (place : DonutModel → Except String Unit)
    (st : DonutState) : DonutState × Except String (Processor × DonutModel) :=
  match st.donut_processor, st.donut_model with
  | some p, some m => (st, .ok (p, m))
  | _, _ =>
    match lp with
    | .error e => (st, .error e)
    | .ok p =>
      match lm with
      | .error e => ({ st with donut_processor := some p }, .error e)
      | .ok m =>
        if cuda then
          match place m with
          | .error e => (⟨some p, some m⟩, .error e)
          | .ok _ => (⟨some p, some m⟩, .ok (p, m))
        else (⟨some p, some m⟩, .ok (p, m))

/-! ## Decode post-processing (app.py:174-177) -/

/-- Python `s.replace(pat, "")`: remove all non-overlapping occurrences,
scanning left to right. -/
def removeAllOcc (pat : List Char) : List Char → List Char
  | [] => []
  | c :: cs =>
    if h : pat ≠ [] ∧ pat.isPrefixOf (c :: cs) then
      removeAllOcc pat ((c :: cs).drop pat.length)
    else
      c :: removeAllOcc pat cs
termination_by s => s.length
decreasing_by
· simp only [List.length_drop, List.length_cons]
  have h1 : 0 < pat.length := List.length_pos.mpr h.1
  omega
· simp only [List.length_cons]
  omega

/-- Whether `pat` occurs as a contiguous run inside `s`. -/
def containsSeq (pat : List Char) : List Char → Bool
  | [] => pat.isPrefixOf []
  | c :: cs => pat.isPrefixOf (c :: cs) || containsSeq pat cs

/-- Scan for the closing `>` of the lazy pattern `<.*?>`: the remainder
after the first `>`, failing at end of input or at a newline (`.` does not
match a newline). -/
def tagEnd : List Char → Option (List Char)
  | [] => none
  | c :: cs => if c = '>' then some cs else if c = '\n' then none else tagEnd cs

/-- `re.sub(r"<.*?>", "", s, count=1)`: remove the leftmost,
shortest angle-bracket-delimited run. -/
def removeFirstTag : List Char → List Char
  | [] => []
  | c :: cs =>
    if c = '<' then
      match tagEnd cs with
      | some rest => rest
      | none => c :: removeFirstTag cs
    else c :: removeFirstTag cs

/-- Python whitespace characters stripped by `str.strip()` (ASCII part). -/
def pyWs (c : Char) : Bool :=
  c == ' ' || c == '\t' || c == '\n' || c == '\r' || c == Char.ofNat 11 || c == Char.ofNat 12

/-- Strip trailing whitespace. -/
def rstripWs (s : List Char) : List Char := (s.reverse.dropWhile pyWs).reverse

/-- Python `str.strip()`. -/
def pyStrip (s : List Char) : List Char := rstripWs (s.dropWhile pyWs)

/-- The post-processing applied to the decoded sequence
(app.py:176-177): remove every EOS occurrence, then every PAD occurrence,
then the first angle-bracket run, then surrounding whitespace. -/
def postprocess (eos pad : List Char) (s : List Char) : List Char :=
  pyStrip (removeFirstTag (removeAllOcc pad (removeAllOcc eos s)))

/-! ## Structured field extraction (app.py:126-202) -/

abbrev PixelValues := ℕ
abbrev Tokens := ℕ

/-- Oracles for the external calls made by `extract_structured_with_donut`:
the two `from_pretrained` loads, `torch.cuda.is_available()` and the model
device move (`load_donut_model`), `processor(image)`, `processor.tokenizer`
on the decoder prompt, `model.generate`, and `processor.batch_decode`;
`eos`/`pad` are `tokenizer.eos_token` / `tokenizer.pad_token`. -/
structure DonutOracles where
  lp : Except String Processor
  lm : Except String DonutModel
  cuda : Bool
  place : DonutModel → Except String Unit
  prep : Processor → PageImage → Except String PixelValues
  seed : Processor → String → Except String Tokens
  gen : DonutModel → PixelValues → Tokens → Except String Tokens
  dec : Processor → Tokens → Except String (List Char)
  eos : List Char
  pad : List Char

/-- `prompt_map.get(target_field, f"What is the {target_field}?")`
(app.py:134-143). -/
def prompt_map (target_field : String) : String :=
  if target_field = "product_name" then "What is the product name?"
  else if target_field = "order_id" then "What is the order ID?"
  else if target_field = "invoice_number" then "What is the invoice number?"
  else if target_field = "total_amount" then "What is the total amount?"
  else if target_field = "purchase_date" then "What is the purchase date?"
  else if target_field = "retailer" then "What is the retailer name?"
  else "What is the " ++ target_field ++ "?"

/-- The decoder seed string
`f"<s_docvqa><s_question>{prompt}</s_question><s_answer>"` (app.py:153). -/
def decoder_prompt (target_field : String) : String :=
  "<s_docvqa><s_question>" ++ prompt_map target_field ++ "</s_question><s_answer>"

/-- `extract_structured_with_donut` (app.py:126-183).  The whole body is a
`try` whose `except Exception` returns `""`, so each failing step
short-circuits to the empty string.  Returns the updated globals and the
field value. -/
def extract_structured_with_donut (ors : DonutOracles) (image : PageImage)
    (st : DonutState) (target_field : String) : DonutState × List Char :=
  match load_donut_model ors.lp ors.lm ors.cuda ors.place st with
  | (st', .error _) => (st', [])
  | (st', .ok (p, m)) =>
    match ors.prep p image with
    | .error _ => (st', [])
    | .ok pixel_values =>
      match ors.seed p (decoder_prompt target_field) with
      | .error _ => (st', [])
      | .ok decoder_input_ids =>
        match ors.gen m pixel_values decoder_input_ids with
        | .error _ => (st', [])
        | .ok outputs =>
          match ors.dec p outputs with
          | .error _ => (st', [])
          | .ok sequence => (st', postprocess ors.eos ors.pad sequence)

/-- The fixed field list (app.py:190). -/
def fields : List String :=
  ["product_name", "order_id", "invoice_number", "total_amount", "purchase_date", "retailer"]

/-- The per-field loop of `extract_all_structured_fields` (app.py:193-200):
`results[field] = value if value else ""`.  The surrounding
`try`/`except` in the loop is unreachable because
`extract_structured_with_donut` is total, mirroring the Python inner
catch-all. -/
def extractFieldsGo (ors : DonutOracles) (image : PageImage) :
    List String → DonutState → DonutState × List (String × List Char)
  | [], st => (st, [])
  | f :: fs, st =>
    let r := extract_structured_with_donut ors image st f
    let value := r.2
    let entry := (f, if value ≠ [] then value else [])
    let rest := extractFieldsGo ors image fs r.1
    (rest.1, entry :: rest.2)

/-- `extract_all_structured_fields` (app.py:186-202). -/
def extract_all_structured_fields (ors : DonutOracles) (image : PageImage)
    (st : DonutState) : DonutState × List (String × List Char) :=
  extractFieldsGo ors image fields st

/-! ## `/ai-structured-extract` endpoint (app.py:261-299) -/

inductive ContentType where
  | pdf
  | other
  deriving DecidableEq, Repr

/-- One uploaded document: its declared content type, what the PDF backend
would parse its bytes to, and what `PIL.Image.open` would decode them to. -/
structure DocRequest where
  content_type : ContentType
  pdfDoc : Except String (List RawPage)
  imageDecode : Except String PageImage

/-- `ai_structured_extract` (app.py:261-299).  An exception anywhere in the
body (including the `HTTPException(400)` raised on a `None` image) is
caught by the outer `except` and surfaces as a request-level error; a
successful rasterization runs the orchestrator and returns its mapping. -/
def ai_structured_extract (req : DocRequest) (ors : DonutOracles) (st : DonutState) :
    DonutState × Except String (List (String × List Char)) :=
  let imgE : Except String (Option PageImage) :=
    match req.content_type with
    | .pdf => convert_pdf_to_image req.pdfDoc
    | .other =>
      match req.imageDecode with
      | .error e => .error e
      | .ok img => .ok (some img)
  match imgE with
  | .error e => (st, .error e)
  | .ok none => (st, .error "Failed to process file")
  | .ok (some image) =>
    let r := extract_all_structured_fields ors image st
    (r.1, .ok r.2)

/-- C6: for a PDF input the rasterizer renders only the first page, at
300 DPI; an invalid byte stream propagates the backend error and a document
with zero renderable pages produces `None`, which the request handler turns
into a request-level failure — no partial or blank page image is ever
produced. -/
theorem C6_pdf_rasterization (e : String) (p : RawPage) (rest : List RawPage)
    (ors : DonutOracles) (st : DonutState) (img : Except String PageImage) :
    convert_pdf_to_image (.error e) = .error e ∧
    convert_pdf_to_image (.ok []) = .ok none ∧
    convert_pdf_to_image (.ok (p :: rest)) = .ok (some ⟨p, 300⟩) ∧
    (ai_structured_extract ⟨.pdf, .error e, img⟩ ors st).2 = .error e ∧
    (ai_structured_extract ⟨.pdf, .ok [], img⟩ ors st).2 =
      .error "Failed to process file" := by
  refine ⟨rfl, rfl, ?_, rfl, rfl⟩
  simp [convert_pdf_to_image, convert_from_bytes]

theorem extractFieldsGo_keys (ors : DonutOracles) (image : PageImage)
    (fs : List String) (st : DonutState) :
    ((extractFieldsGo ors image fs st).2).map Prod.fst = fs := by
  induction fs generalizing st with
  | nil => rfl
  | cons f fs ih => simp [extractFieldsGo, ih]

/-- C2: for every page image and any combination of per-field outcomes, the
mapping returned by the orchestrator binds exactly the six fixed keys, in
order, each to a string (possibly empty) — never a partial mapping. -/
theorem C2_six_keys (ors : DonutOracles) (image : PageImage) (st : DonutState) :
    ((extract_all_structured_fields ors image st).2).map Prod.fst = fields :=
  extractFieldsGo_keys ors image fields st

/-- C7 as written is false on the code at two points.  (i) When the
processor load succeeds and the model load fails, the global
`donut_processor` keeps the value assigned inside the `try`, so the
singleton is not left in the uninitialized state.  (ii) When both loads
succeed and the in-`try` device move `donut_model.to("cuda")` fails, BOTH
globals stay assigned, so a subsequent call returns the existing (possibly
partially-moved) handle without attempting construction again — here even
with loaders that would now fail. -/
theorem C7_cex :
    (load_donut_model (.ok ⟨0⟩) (.error "insufficient memory") true
        (fun _ => .ok ()) ⟨none, none⟩).1 = ⟨some ⟨0⟩, none⟩ ∧
    (⟨some ⟨0⟩, none⟩ : DonutState) ≠ ⟨none, none⟩ ∧
    load_donut_model (.ok ⟨0⟩) (.ok ⟨0⟩) true (fun _ => .error "cuda oom")
        ⟨none, none⟩ = (⟨some ⟨0⟩, some ⟨0⟩⟩, .error "cuda oom") ∧
    load_donut_model (.error "would fail") (.error "would fail") true
        (fun _ => .error "cuda oom") ⟨some ⟨0⟩, some ⟨0⟩⟩ =
      (⟨some ⟨0⟩, some ⟨0⟩⟩, .ok (⟨0⟩, ⟨0⟩)) := by
  exact ⟨rfl, by decide, rfl, rfl⟩

/-- C7 (amended): how a failing first `load_donut_model` call leaves the
singleton depends on the failing step.  If one of the two `from_pretrained`
loads fails, `donut_model` is left unset (`donut_processor` may retain the
value from a successful first step) and, because the guard re-checks both
globals, a subsequent call attempts construction again, returning a fresh
fully-initialized handle when the loads and any device placement now
succeed.  If instead both loads succeed and the device-placement step
fails, both globals are left assigned, so a subsequent call returns that
existing handle without re-attempting construction. -/
theorem C7_retry_after_failure (lp : Except String Processor)
    (lm : Except String DonutModel) (cuda : Bool)
    (place : DonutModel → Except String Unit) (st' : DonutState) (e : String)
    (h : load_donut_model lp lm cuda place ⟨none, none⟩ = (st', .error e)) :
    ((lp = .error e ∨ lm = .error e) →
      st'.donut_model = none ∧
      ∀ p m (place' : DonutModel → Except String Unit),
        (cuda = true → place' m = .ok ()) →
        load_donut_model (.ok p) (.ok m) cuda place' st' =
          (⟨some p, some m⟩, .ok (p, m))) ∧
    (∀ p m, lp = .ok p → lm = .ok m →
      st' = ⟨some p, some m⟩ ∧
      ∀ lp' lm' (cuda' : Bool) (place' : DonutModel → Except String Unit),
        load_donut_model lp' lm' cuda' place' st' = (st', .ok (p, m))) := by
  constructor
  · intro hfail
    cases lp with
    | error e' =>
      simp only [load_donut_model, Prod.mk.injEq] at h
      obtain ⟨h1, -⟩ := h
      subst h1
      refine ⟨rfl, ?_⟩
      intro p m place' hpl
      cases cuda with
      | false => rfl
      | true => simp [load_donut_model, hpl rfl]
    | ok p0 =>
      cases lm with
      | error e' =>
        simp only [load_donut_model, Prod.mk.injEq] at h
        obtain ⟨h1, -⟩ := h
        subst h1
        refine ⟨rfl, ?_⟩
        intro p m place' hpl
        cases cuda with
        | false => rfl
        | true => simp [load_donut_model, hpl rfl]
      | ok m0 =>
        rcases hfail with hf | hf <;> exact Except.noConfusion hf
  · intro p m hlp hlm
    subst hlp
    subst hlm
    cases cuda with
    | false => simp [load_donut_model] at h
    | true =>
      cases hpl : place m with
      | error e' =>
        simp [load_donut_model, hpl] at h
        obtain ⟨h1, -⟩ := h
        subst h1
        exact ⟨rfl, fun lp' lm' cuda' place' => rfl⟩
      | ok u => simp [load_donut_model, hpl] at h

/-- Witness for C7 (amended) at a concrete first call failing in the
processor load, followed by a retry that succeeds. -/
theorem C7_retry_after_failure_witness :
    ((load_donut_model (.error "artifact unavailable") (.ok ⟨1⟩) false
        (fun _ => .ok ()) ⟨none, none⟩).1).donut_model = none ∧
    load_donut_model (.ok ⟨5⟩) (.ok ⟨6⟩) false (fun _ => .ok ())
        (load_donut_model (.error "artifact unavailable") (.ok ⟨1⟩) false
          (fun _ => .ok ()) ⟨none, none⟩).1 =
      (⟨some ⟨5⟩, some ⟨6⟩⟩, .ok (⟨5⟩, ⟨6⟩)) := by
  have h := (C7_retry_after_failure (.error "artifact unavailable") (.ok ⟨1⟩) false
    (fun _ => .ok ()) _ "artifact unavailable" rfl).1 (Or.inl rfl)
  exact ⟨h.1, h.2 ⟨5⟩ ⟨6⟩ (fun _ => .ok ()) (fun _ => rfl)⟩

/-- C10: the single-field extraction is total over failures — every failing
external step (model load, pixel preparation, seed tokenization, generation,
decoding) short-circuits to the empty string, so the function never
propagates a failure to its caller: either some step failed and the value is
`""`, or every step succeeded and the value is the post-processed decoded
sequence. -/
theorem C10_single_field_total (ors : DonutOracles) (image : PageImage)
    (st : DonutState) (f : String) :
    (extract_structured_with_donut ors image st f).2 = [] ∨
    ∃ p m pixel_values ids outputs sequence,
      (load_donut_model ors.lp ors.lm ors.cuda ors.place st).2 = .ok (p, m) ∧
      ors.prep p image = .ok pixel_values ∧
      ors.seed p (decoder_prompt f) = .ok ids ∧
      ors.gen m pixel_values ids = .ok outputs ∧
      ors.dec p outputs = .ok sequence ∧
      (extract_structured_with_donut ors image st f).2 =
        postprocess ors.eos ors.pad sequence := by
  rcases hload : load_donut_model ors.lp ors.lm ors.cuda ors.place st with ⟨st', res⟩
  cases res with
  | error e => left; simp [extract_structured_with_donut, hload]
  | ok pm =>
    obtain ⟨p, m⟩ := pm
    cases hprep : ors.prep p image with
    | error e => left; simp [extract_structured_with_donut, hload, hprep]
    | ok pv =>
      cases hseed : ors.seed p (decoder_prompt f) with
      | error e => left; simp [extract_structured_with_donut, hload, hprep, hseed]
      | ok ids =>
        cases hgen : ors.gen m pv ids with
        | error e => left; simp [extract_structured_with_donut, hload, hprep, hseed, hgen]
        | ok outs =>
          cases hdec : ors.dec p outs with
          | error e =>
            left; simp [extract_structured_with_donut, hload, hprep, hseed, hgen, hdec]
          | ok seq =>
            right
            exact ⟨p, m, pv, ids, outs, seq, by simp [hload], hprep, hseed, hgen, hdec,
              by simp [extract_structured_with_donut, hload, hprep, hseed, hgen, hdec]⟩

theorem load_fail_of_model_none (lp : Except String Processor)
    (lm : Except String DonutModel) (cuda : Bool)
    (place : DonutModel → Except String Unit) (st : DonutState)
    (hst : st.donut_model = none)
    (hfail : (∃ e, lp = .error e) ∨ ∃ e, lm = .error e) :
    ∃ e, (load_donut_model lp lm cuda place st).2 = .error e ∧
      ((load_donut_model lp lm cuda place st).1).donut_model = none := by
  obtain ⟨dp, dm⟩ := st
  simp only [DonutState.mk.injEq] at hst
  cases dm with
  | some _ => simp at hst
  | none =>
    cases lp with
    | error e => exact ⟨e, by cases dp <;> simp [load_donut_model]⟩
    | ok p =>
      cases lm with
      | error e => exact ⟨e, by cases dp <;> simp [load_donut_model]⟩
      | ok m =>
        rcases hfail with ⟨e, he⟩ | ⟨e, he⟩ <;> exact Except.noConfusion he

theorem load_ok_of_model_none (p : Processor) (m : DonutModel) (cuda : Bool)
    (place : DonutModel → Except String Unit) (st : DonutState)
    (hst : st.donut_model = none)
    (hplace : cuda = true → place m = .ok ()) :
    load_donut_model (.ok p) (.ok m) cuda place st =
      (⟨some p, some m⟩, .ok (p, m)) := by
  obtain ⟨dp, dm⟩ := st
  cases dm with
  | some _ => simp at hst
  | none =>
    cases cuda with
    | false => cases dp <;> rfl
    | true =>
      have hpl := hplace rfl
      cases dp <;> simp [load_donut_model, hpl]

theorem extract_field_of_load_fail (ors : DonutOracles) (image : PageImage)
    (st : DonutState) (f : String)
    (hst : st.donut_model = none)
    (hfail : (∃ e, ors.lp = .error e) ∨ ∃ e, ors.lm = .error e) :
    (extract_structured_with_donut ors image st f).2 = [] ∧
    ((extract_structured_with_donut ors image st f).1).donut_model = none := by
  obtain ⟨e, he, hm⟩ := load_fail_of_model_none ors.lp ors.lm ors.cuda ors.place st hst hfail
  rcases hl : load_donut_model ors.lp ors.lm ors.cuda ors.place st with ⟨st', res⟩
  rw [hl] at he hm
  simp only at he hm
  subst he
  constructor <;> simp [extract_structured_with_donut, hl, hm]

theorem extractFieldsGo_load_fail (ors : DonutOracles) (image : PageImage)
    (fs : List String) (st : DonutState)
    (hst : st.donut_model = none)
    (hfail : (∃ e, ors.lp = .error e) ∨ ∃ e, ors.lm = .error e) :
    (extractFieldsGo ors image fs st).2 = fs.map (fun f => (f, ([] : List Char))) ∧
    ((extractFieldsGo ors image fs st).1).donut_model = none := by
  induction fs generalizing st with
  | nil => exact ⟨rfl, hst⟩
  | cons f fs ih =>
    obtain ⟨hv, hm⟩ := extract_field_of_load_fail ors image st f hst hfail
    obtain ⟨ih1, ih2⟩ := ih (extract_structured_with_donut ors image st f).1 hm
    constructor
    · simp [extractFieldsGo, hv, ih1]
    · simp [extractFieldsGo, ih2]

/-- C3 as written is false on the code: a model-construction failure does
not abort the structured-extract request.  With a loader that fails
(`from_pretrained` raising) and a decodable image, the per-field catch-all
in `extract_structured_with_donut` swallows the load error, and the request
returns the full six-key mapping with every value the empty string. -/
theorem C3_cex :
    (ai_structured_extract
        ⟨.other, .ok [], .ok ⟨⟨0⟩, 0⟩⟩
        ⟨.error "load failed", .ok ⟨0⟩, false, fun _ => .ok (),
         fun _ _ => .ok 0, fun _ _ => .ok 0,
         fun _ _ _ => .ok 0, fun _ _ => .ok [], [], []⟩
        ⟨none, none⟩).2 =
      .ok [("product_name", []), ("order_id", []), ("invoice_number", []),
           ("total_amount", []), ("purchase_date", []), ("retailer", [])] := by
  rfl

/-- C3 (amended): if construction of the structured field model fails at
either `from_pretrained` load step, each per-field extraction catches the
failure, so a structured-extract request on a decodable image succeeds with
the full six-key mapping, every value the empty string — not a
request-level error; and such a load failure does not poison future
requests: `donut_model` is left unset, so the next `load_donut_model` call
attempts construction again, succeeding when the loads and any device
placement succeed.  (A failure of the in-`try` device move after both loads
succeed is also caught per-field but leaves both globals assigned and is
not retried — see the C7 analysis.) -/
theorem C3_model_load_failure (ors : DonutOracles) (req : DocRequest)
    (img : PageImage) (st : DonutState)
    (hct : req.content_type = .other) (himg : req.imageDecode = .ok img)
    (hst : st.donut_model = none)
    (hfail : (∃ e, ors.lp = .error e) ∨ ∃ e, ors.lm = .error e) :
    (ai_structured_extract req ors st).2 =
      .ok (fields.map fun f => (f, ([] : List Char))) ∧
    ((ai_structured_extract req ors st).1).donut_model = none ∧
    ∀ p m (place' : DonutModel → Except String Unit),
      (ors.cuda = true → place' m = .ok ()) →
      load_donut_model (.ok p) (.ok m) ors.cuda place'
          (ai_structured_extract req ors st).1 =
        ((⟨some p, some m⟩ : DonutState), .ok (p, m)) := by
  obtain ⟨hv, hm⟩ := extractFieldsGo_load_fail ors img fields st hst hfail
  have hrun : ai_structured_extract req ors st =
      ((extract_all_structured_fields ors img st).1,
        .ok (extract_all_structured_fields ors img st).2) := by
    simp [ai_structured_extract, hct, himg]
  refine ⟨?_, ?_, ?_⟩
  · rw [hrun]
    exact congrArg Except.ok hv
  · rw [hrun]
    exact hm
  · intro p m place' hpl
    rw [hrun]
    exact load_ok_of_model_none p m ors.cuda place' _ hm hpl

/-- Witness for C3 (amended) at a concrete failing loader. -/
theorem C3_model_load_failure_witness :
    (ai_structured_extract
        ⟨.other, .ok [], .ok ⟨⟨0⟩, 0⟩⟩
        ⟨.error "load failed", .ok ⟨0⟩, false, fun _ => .ok (),
         fun _ _ => .ok 1, fun _ _ => .ok 1,
         fun _ _ _ => .ok 1, fun _ _ => .ok [], [], []⟩
        ⟨none, none⟩).2 =
      .ok (fields.map fun f => (f, ([] : List Char))) ∧
    ((ai_structured_extract
        ⟨.other, .ok [], .ok ⟨⟨0⟩, 0⟩⟩
        ⟨.error "load failed", .ok ⟨0⟩, false, fun _ => .ok (),
         fun _ _ => .ok 1, fun _ _ => .ok 1,
         fun _ _ _ => .ok 1, fun _ _ => .ok [], [], []⟩
        ⟨none, none⟩).1).donut_model = none ∧
    ∀ p m (place' : DonutModel → Except String Unit),
      ((false : Bool) = true → place' m = .ok ()) →
      load_donut_model (.ok p) (.ok m) false place'
        (ai_structured_extract
          ⟨.other, .ok [], .ok ⟨⟨0⟩, 0⟩⟩
          ⟨.error "load failed", .ok ⟨0⟩, false, fun _ => .ok (),
           fun _ _ => .ok 1, fun _ _ => .ok 1,
           fun _ _ _ => .ok 1, fun _ _ => .ok [], [], []⟩
          ⟨none, none⟩).1 =
      ((⟨some p, some m⟩ : DonutState), .ok (p, m)) :=
  C3_model_load_failure _ _ ⟨⟨0⟩, 0⟩ _ rfl rfl rfl (Or.inl ⟨"load failed", rfl⟩)

/-- Inject a failure into the generation step exactly when the decoder seed
tokens are `t0` (the seed of the targeted field). -/
def injectGen (ors : DonutOracles) (t0 : Tokens) : DonutOracles :=
  { ors with gen := fun m pv t => if t = t0 then .error "injected failure" else ors.gen m pv t }

theorem extract_field_state (ors : DonutOracles) (image : PageImage)
    (st : DonutState) (f : String) :
    (extract_structured_with_donut ors image st f).1 =
      (load_donut_model ors.lp ors.lm ors.cuda ors.place st).1 := by
  rcases hl : load_donut_model ors.lp ors.lm ors.cuda ors.place st with ⟨st', res⟩
  cases res with
  | error e => simp [extract_structured_with_donut, hl]
  | ok pm =>
    obtain ⟨p, m⟩ := pm
    cases hprep : ors.prep p image with
    | error e => simp [extract_structured_with_donut, hl, hprep]
    | ok pv =>
      cases hseed : ors.seed p (decoder_prompt f) with
      | error e => simp [extract_structured_with_donut, hl, hprep, hseed]
      | ok t =>
        cases hgen : ors.gen m pv t with
        | error e => simp [extract_structured_with_donut, hl, hprep, hseed, hgen]
        | ok outs =>
          cases hdec : ors.dec p outs <;>
            simp [extract_structured_with_donut, hl, hprep, hseed, hgen, hdec]

theorem extract_field_inject_other (ors : DonutOracles) (t0 : Tokens)
    (image : PageImage) (st : DonutState) (f : String)
    (hne : ∀ p t, ors.seed p (decoder_prompt f) = .ok t → t ≠ t0) :
    extract_structured_with_donut (injectGen ors t0) image st f =
      extract_structured_with_donut ors image st f := by
  rcases hl : load_donut_model ors.lp ors.lm ors.cuda ors.place st with ⟨st', res⟩
  cases res with
  | error e => simp [extract_structured_with_donut, injectGen, hl]
  | ok pm =>
    obtain ⟨p, m⟩ := pm
    cases hprep : ors.prep p image with
    | error e => simp [extract_structured_with_donut, injectGen, hl, hprep]
    | ok pv =>
      cases hseed : ors.seed p (decoder_prompt f) with
      | error e => simp [extract_structured_with_donut, injectGen, hl, hprep, hseed]
      | ok t =>
        have ht : t ≠ t0 := hne p t hseed
        simp [extract_structured_with_donut, injectGen, hl, hprep, hseed, ht]

theorem extract_field_inject_self (ors : DonutOracles) (t0 : Tokens)
    (image : PageImage) (st : DonutState) (f : String)
    (hs0 : ∀ p, ors.seed p (decoder_prompt f) = .ok t0) :
    (extract_structured_with_donut (injectGen ors t0) image st f).2 = [] := by
  rcases hl : load_donut_model ors.lp ors.lm ors.cuda ors.place st with ⟨st', res⟩
  cases res with
  | error e => simp [extract_structured_with_donut, injectGen, hl]
  | ok pm =>
    obtain ⟨p, m⟩ := pm
    cases hprep : ors.prep p image with
    | error e => simp [extract_structured_with_donut, injectGen, hl, hprep]
    | ok pv => simp [extract_structured_with_donut, injectGen, hl, hprep, hs0 p]

theorem extractFieldsGo_inject (ors : DonutOracles) (t0 : Tokens)
    (image : PageImage) (f0 : String)
    (hs0 : ∀ p, ors.seed p (decoder_prompt f0) = .ok t0)
    (fs : List String)
    (hne : ∀ f ∈ fs, f ≠ f0 → ∀ p t, ors.seed p (decoder_prompt f) = .ok t → t ≠ t0) :
    ∀ st,
      (extractFieldsGo (injectGen ors t0) image fs st).1 =
        (extractFieldsGo ors image fs st).1 ∧
      (∀ f, f ≠ f0 →
        ((extractFieldsGo (injectGen ors t0) image fs st).2).lookup f =
          ((extractFieldsGo ors image fs st).2).lookup f) ∧
      (f0 ∈ fs →
        ((extractFieldsGo (injectGen ors t0) image fs st).2).lookup f0 = some []) := by
  induction fs with
  | nil => exact fun st => ⟨rfl, fun f _ => rfl, by simp⟩
  | cons g gs ih =>
    intro st
    by_cases hg : g = f0
    · subst hg
      have hval : (extract_structured_with_donut (injectGen ors t0) image st g).2 = [] :=
        extract_field_inject_self ors t0 image st g hs0
      have hstate : (extract_structured_with_donut (injectGen ors t0) image st g).1 =
          (extract_structured_with_donut ors image st g).1 := by
        rw [extract_field_state, extract_field_state]
        rfl
      obtain ⟨ihs, ihl, ihm⟩ := ih
        (fun f hf => hne f (List.mem_cons_of_mem g hf))
        ((extract_structured_with_donut (injectGen ors t0) image st g).1)
      refine ⟨?_, ?_, ?_⟩
      · simp only [extractFieldsGo]
        rw [← hstate]
        exact ihs
      · intro f hf
        have hbeq : (f == g) = false := beq_eq_false_iff_ne.mpr hf
        simp only [extractFieldsGo, List.lookup, hbeq]
        rw [← hstate]
        exact ihl f hf
      · intro _
        simp only [extractFieldsGo, List.lookup, beq_self_eq_true, hval]
        simp
    · have heq : extract_structured_with_donut (injectGen ors t0) image st g =
          extract_structured_with_donut ors image st g :=
        extract_field_inject_other ors t0 image st g
          (hne g (List.mem_cons_self g gs) hg)
      obtain ⟨ihs, ihl, ihm⟩ := ih
        (fun f hf => hne f (List.mem_cons_of_mem g hf))
        ((extract_structured_with_donut ors image st g).1)
      refine ⟨?_, ?_, ?_⟩
      · simp only [extractFieldsGo, heq]
        exact ihs
      · intro f hf
        simp only [extractFieldsGo, heq, List.lookup]
        cases hfg : f == g
        · exact ihl f hf
        · rfl
      · intro hmem
        have hf0g : f0 ≠ g := fun hh => hg hh.symm
        have hbeq : (f0 == g) = false := beq_eq_false_iff_ne.mpr hf0g
        have hmem' : f0 ∈ gs := by
          rcases List.mem_cons.mp hmem with h' | h'
          · exact absurd h'.symm hg
          · exact h'
        simp only [extractFieldsGo, heq, List.lookup, hbeq]
        exact ihm hmem'

/-- C1: per-field failure isolation.  Injecting a failure into exactly one
field's generation step (the generation call made with that field's decoder
seed) leaves every other field's result in the returned mapping unchanged,
and the failed field's value is the empty string; the failure never aborts
extraction of the remaining fields. -/
theorem C1_failure_isolation (ors : DonutOracles) (t0 : Tokens)
    (image : PageImage) (st : DonutState) (f0 : String)
    (hmem : f0 ∈ fields)
    (hs0 : ∀ p, ors.seed p (decoder_prompt f0) = .ok t0)
    (hne : ∀ f ∈ fields, f ≠ f0 → ∀ p t, ors.seed p (decoder_prompt f) = .ok t → t ≠ t0) :
    (∀ f, f ≠ f0 →
      ((extract_all_structured_fields (injectGen ors t0) image st).2).lookup f =
        ((extract_all_structured_fields ors image st).2).lookup f) ∧
    ((extract_all_structured_fields (injectGen ors t0) image st).2).lookup f0 =
      some [] := by
  obtain ⟨-, hl, hm⟩ := extractFieldsGo_inject ors t0 image f0 hs0 fields hne st
  exact ⟨hl, hm hmem⟩

/-- A concrete oracle bundle whose decoder seeds distinguish the
`product_name` prompt from every other field prompt. -/
def orsW : DonutOracles :=
  ⟨.ok ⟨0⟩, .ok ⟨0⟩, false, fun _ => .ok (), fun _ _ => .ok 0,
   fun _ s => .ok (if s = decoder_prompt "product_name" then 0 else 1),
   fun _ _ _ => .ok 0, fun _ _ => .ok ['x'], [], []⟩

/-- Witness for C1 at the concrete bundle `orsW`, injecting a failure into
the `product_name` generation. -/
theorem C1_failure_isolation_witness :
    (∀ f, f ≠ "product_name" →
      ((extract_all_structured_fields (injectGen orsW 0) ⟨⟨0⟩, 0⟩ ⟨none, none⟩).2).lookup f =
        ((extract_all_structured_fields orsW ⟨⟨0⟩, 0⟩ ⟨none, none⟩).2).lookup f) ∧
    ((extract_all_structured_fields (injectGen orsW 0) ⟨⟨0⟩, 0⟩ ⟨none, none⟩).2).lookup
        "product_name" = some [] :=
  C1_failure_isolation orsW 0 ⟨⟨0⟩, 0⟩ ⟨none, none⟩ "product_name"
    (by simp [fields])
    (by intro p; simp [orsW])
    (by
      intro f hf hff p t hseed
      have hx : decoder_prompt f ≠ decoder_prompt "product_name" := by
        fin_cases hf
        · exact absurd rfl hff
        all_goals decide
      have hok : orsW.seed p (decoder_prompt f) = .ok 1 := by
        show Except.ok (if decoder_prompt f = decoder_prompt "product_name" then 0 else 1) = _
        rw [if_neg hx]
      rw [hok] at hseed
      injection hseed with h
      rw [← h]
      decide)

theorem isPrefixOf_iff_exists (pat s : List Char) :
    pat.isPrefixOf s = true ↔ ∃ t, s = pat ++ t := by
  induction pat generalizing s with
  | nil => simp [List.isPrefixOf]
  | cons a as ih =>
    cases s with
    | nil => simp [List.isPrefixOf]
    | cons b bs =>
      simp only [List.isPrefixOf, Bool.and_eq_true, beq_iff_eq, ih]
      constructor
      · rintro ⟨rfl, t, rfl⟩
        exact ⟨t, rfl⟩
      · rintro ⟨t, ht⟩
        injection ht with h1 h2
        exact ⟨h1.symm, t, h2⟩

theorem removeAllOcc_of_not_contains (pat s : List Char)
    (h : containsSeq pat s = false) : removeAllOcc pat s = s := by
  induction s with
  | nil => simp [removeAllOcc]
  | cons c cs ih =>
    simp only [containsSeq, Bool.or_eq_false_iff] at h
    simp only [removeAllOcc]
    rw [dif_neg, ih h.2]
    rintro ⟨-, hpre⟩
    rw [h.1] at hpre
    exact Bool.noConfusion hpre

/-- `cleanBefore eos l = true` states that no occurrence of `eos` in
`l ++ eos` starts strictly before the final position (including runs that
straddle the boundary). -/
def cleanBefore (eos : List Char) : List Char → Bool
  | [] => true
  | c :: cs => !(eos.isPrefixOf (c :: cs ++ eos)) && cleanBefore eos cs

theorem removeAllOcc_append_self (eos l : List Char) (hne : eos ≠ [])
    (h : cleanBefore eos l = true) : removeAllOcc eos (l ++ eos) = l := by
  induction l with
  | nil =>
    simp only [List.nil_append]
    obtain ⟨a, as, rfl⟩ : ∃ a as, eos = a :: as := by
      cases eos with
      | nil => exact absurd rfl hne
      | cons a as => exact ⟨a, as, rfl⟩
    simp only [removeAllOcc]
    rw [dif_pos ⟨hne, (isPrefixOf_iff_exists _ _).mpr ⟨[], by simp⟩⟩, List.drop_length]
    simp [removeAllOcc]
  | cons c cs ih =>
    simp only [cleanBefore, Bool.and_eq_true, Bool.not_eq_true', List.cons_append] at h
    simp only [List.cons_append, removeAllOcc]
    rw [dif_neg, ih h.2]
    rintro ⟨-, hpre⟩
    rw [h.1] at hpre
    exact Bool.noConfusion hpre

theorem containsSeq_iff (pat s : List Char) :
    containsSeq pat s = true ↔ ∃ u v, s = u ++ pat ++ v := by
  induction s with
  | nil =>
    simp only [containsSeq, isPrefixOf_iff_exists]
    constructor
    · rintro ⟨t, ht⟩
      obtain ⟨hp, ht'⟩ := List.append_eq_nil.mp ht.symm
      exact ⟨[], [], by simp [hp, ht']⟩
    · rintro ⟨u, v, huv⟩
      obtain ⟨hup, hv⟩ := List.append_eq_nil.mp huv.symm
      obtain ⟨hu, hp⟩ := List.append_eq_nil.mp hup
      exact ⟨[], by simp [hp]⟩
  | cons c cs ih =>
    simp only [containsSeq, Bool.or_eq_true, isPrefixOf_iff_exists, ih]
    constructor
    · rintro (⟨t, ht⟩ | ⟨u, v, huv⟩)
      · exact ⟨[], t, by simpa using ht⟩
      · exact ⟨c :: u, v, by simp [huv]⟩
    · rintro ⟨u, v, huv⟩
      cases u with
      | nil => exact Or.inl ⟨v, by simpa using huv⟩
      | cons a us =>
        injection huv with h1 h2
        exact Or.inr ⟨us, v, h2⟩

theorem containsSeq_of_part (pat u m v : List Char)
    (h : containsSeq pat m = true) : containsSeq pat (u ++ m ++ v) = true := by
  obtain ⟨a, b, rfl⟩ := (containsSeq_iff pat m).mp h
  exact (containsSeq_iff pat _).mpr ⟨u ++ a, b ++ v, by simp⟩

theorem containsSeq_sub_false (pat s u m v : List Char)
    (hs : s = u ++ m ++ v) (h : containsSeq pat s = false) :
    containsSeq pat m = false := by
  cases hm : containsSeq pat m with
  | false => rfl
  | true =>
    have hpart := containsSeq_of_part pat u m v hm
    rw [hs] at h
    rw [h] at hpart
    exact Bool.noConfusion hpart

theorem mem_of_containsSeq {c : Char} (pat s : List Char)
    (hc : c ∈ pat) (h : containsSeq pat s = true) : c ∈ s := by
  obtain ⟨u, v, rfl⟩ := (containsSeq_iff pat s).mp h
  exact List.mem_append.mpr (Or.inl (List.mem_append.mpr (Or.inr hc)))

theorem tagEnd_append (t r : List Char) (h1 : '>' ∉ t) (h2 : '\n' ∉ t) :
    tagEnd (t ++ '>' :: r) = some r := by
  induction t with
  | nil => simp [tagEnd]
  | cons a ts ih =>
    have ha1 : a ≠ '>' := fun hh => h1 (hh ▸ List.mem_cons_self a ts)
    have ha2 : a ≠ '\n' := fun hh => h2 (hh ▸ List.mem_cons_self a ts)
    simp only [List.cons_append, tagEnd]
    rw [if_neg ha1, if_neg ha2]
    exact ih (fun hh => h1 (List.mem_cons_of_mem a hh))
      (fun hh => h2 (List.mem_cons_of_mem a hh))

theorem removeFirstTag_cons_lt (X : List Char) :
    removeFirstTag ('<' :: X) =
      match tagEnd X with
      | some rest => rest
      | none => '<' :: removeFirstTag X := by
  simp [removeFirstTag]

theorem removeFirstTag_tag (t r : List Char) (h1 : '>' ∉ t) (h2 : '\n' ∉ t) :
    removeFirstTag ('<' :: t ++ '>' :: r) = r := by
  rw [List.cons_append, removeFirstTag_cons_lt, tagEnd_append t r h1 h2]

theorem dropWhile_decomp (p : Char → Bool) (s : List Char) :
    ∃ u, s = u ++ s.dropWhile p :=
  ⟨s.takeWhile p, (List.takeWhile_append_dropWhile p s).symm⟩

theorem rstrip_decomp (s : List Char) : ∃ v, s = rstripWs s ++ v := by
  obtain ⟨u, hu⟩ := dropWhile_decomp pyWs s.reverse
  refine ⟨u.reverse, ?_⟩
  have := congrArg List.reverse hu
  simpa [rstripWs, List.reverse_append] using this

theorem pyStrip_decomp (s : List Char) : ∃ u v, s = u ++ pyStrip s ++ v := by
  obtain ⟨u, hu⟩ := dropWhile_decomp pyWs s
  obtain ⟨v, hv⟩ := rstrip_decomp (s.dropWhile pyWs)
  refine ⟨u, v, ?_⟩
  rw [List.append_assoc]
  conv_lhs => rw [hu, hv]
  rfl

theorem head_dropWhile_false (p : Char → Bool) (l : List Char) (c : Char)
    (h : (l.dropWhile p).head? = some c) : p c = false := by
  induction l with
  | nil => simp at h
  | cons a as ih =>
    rw [List.dropWhile_cons] at h
    by_cases hp : p a
    · rw [if_pos hp] at h
      exact ih h
    · rw [if_neg hp] at h
      simp only [List.head?_cons, Option.some.injEq] at h
      subst h
      exact Bool.eq_false_iff.mpr hp

/-- No leading and no trailing whitespace. -/
def noSurroundWs (s : List Char) : Prop :=
  (∀ c, s.head? = some c → pyWs c = false) ∧
  (∀ c, s.reverse.head? = some c → pyWs c = false)

theorem pyStrip_noSurround (s : List Char) : noSurroundWs (pyStrip s) := by
  constructor
  · intro c hc
    obtain ⟨u, hu⟩ := dropWhile_decomp pyWs ((s.dropWhile pyWs).reverse)
    have hd : s.dropWhile pyWs = pyStrip s ++ u.reverse := by
      have := congrArg List.reverse hu
      simpa [pyStrip, rstripWs, List.reverse_append] using this
    have hd2 : (s.dropWhile pyWs).head? = some c := by
      rw [hd]
      cases hps : pyStrip s with
      | nil => rw [hps] at hc; simp at hc
      | cons x xs =>
        rw [hps] at hc
        simp only [List.head?_cons, Option.some.injEq] at hc
        subst hc
        simp
    exact head_dropWhile_false pyWs s c hd2
  · intro c hc
    have hc' : ((s.dropWhile pyWs).reverse.dropWhile pyWs).head? = some c := by
      simpa [pyStrip, rstripWs] using hc
    exact head_dropWhile_false pyWs _ c hc'

theorem mem_of_mem_pyStrip {c : Char} (s : List Char) (h : c ∈ pyStrip s) : c ∈ s := by
  obtain ⟨u, v, hs⟩ := pyStrip_decomp s
  rw [hs]
  exact List.mem_append.mpr (Or.inl (List.mem_append.mpr (Or.inr h)))

/-- The leading answer-tag marker of the decoder seed. -/
def ansTag : List Char := "<s_answer>".toList

theorem ansTag_eq : ansTag = '<' :: ("s_answer".toList ++ ['>']) := by decide

/-- C8 as written is false on the code: `re.sub(r"<.*?>", "", s, count=1)`
removes only the FIRST angle-bracket marker of the decoded sequence, and the
sequence returned by `model.generate` starts with the decoder prompt, so for
a decoded output beginning with the task marker the answer-tag marker
survives post-processing: the returned value still contains `<s_answer>`. -/
theorem C8_cex :
    postprocess "</s>".toList "<pad>".toList "<s_docvqa><s_answer>hi</s>".toList =
      "<s_answer>hi".toList ∧
    containsSeq "<s_answer>".toList
      (postprocess "</s>".toList "<pad>".toList "<s_docvqa><s_answer>hi</s>".toList) =
      true := by
  have h1 : "<s_docvqa><s_answer>hi</s>".toList =
      "<s_docvqa><s_answer>hi".toList ++ "</s>".toList := by decide
  have h2 : removeAllOcc "</s>".toList
      ("<s_docvqa><s_answer>hi".toList ++ "</s>".toList) =
      "<s_docvqa><s_answer>hi".toList :=
    removeAllOcc_append_self _ _ (by decide) (by decide)
  have h3 : removeAllOcc "<pad>".toList "<s_docvqa><s_answer>hi".toList =
      "<s_docvqa><s_answer>hi".toList :=
    removeAllOcc_of_not_contains _ _ (by decide)
  have h4 : removeFirstTag "<s_docvqa><s_answer>hi".toList = "<s_answer>hi".toList := by
    decide
  have h5 : pyStrip "<s_answer>hi".toList = "<s_answer>hi".toList := by decide
  have hres : postprocess "</s>".toList "<pad>".toList
      "<s_docvqa><s_answer>hi</s>".toList = "<s_answer>hi".toList := by
    show pyStrip (removeFirstTag (removeAllOcc "<pad>".toList
      (removeAllOcc "</s>".toList "<s_docvqa><s_answer>hi</s>".toList))) = _
    rw [h1, h2, h3, h4, h5]
  exact ⟨hres, by rw [hres]; decide⟩

/-- C8 (amended): the post-processing removes every end-of-sequence and
padding occurrence but only the FIRST angle-bracket marker, then trims
surrounding whitespace.  When the decoded output is the leading answer-tag
marker followed by marker-free answer text and a final EOS marker, the
returned value is the trimmed answer text, containing none of the markers
and no surrounding whitespace; in general markers after the first one are
not removed. -/
theorem C8_postprocess_amended (eos pad ans : List Char)
    (hne : eos ≠ [])
    (hclean : cleanBefore eos (ansTag ++ ans) = true)
    (hpad : containsSeq pad (ansTag ++ ans) = false)
    (heosans : containsSeq eos ans = false)
    (hlt : '<' ∉ ans) :
    postprocess eos pad (ansTag ++ ans ++ eos) = pyStrip ans ∧
    noSurroundWs (postprocess eos pad (ansTag ++ ans ++ eos)) ∧
    containsSeq eos (postprocess eos pad (ansTag ++ ans ++ eos)) = false ∧
    containsSeq pad (postprocess eos pad (ansTag ++ ans ++ eos)) = false ∧
    containsSeq ansTag (postprocess eos pad (ansTag ++ ans ++ eos)) = false := by
  have h1 : removeAllOcc eos (ansTag ++ ans ++ eos) = ansTag ++ ans :=
    removeAllOcc_append_self eos (ansTag ++ ans) hne hclean
  have h2 : removeAllOcc pad (ansTag ++ ans) = ansTag ++ ans :=
    removeAllOcc_of_not_contains pad _ hpad
  have h3 : removeFirstTag (ansTag ++ ans) = ans := by
    have hsh : ansTag ++ ans = '<' :: "s_answer".toList ++ '>' :: ans := by
      rw [ansTag_eq]
      simp
    rw [hsh]
    exact removeFirstTag_tag _ ans (by decide) (by decide)
  have hres : postprocess eos pad (ansTag ++ ans ++ eos) = pyStrip ans := by
    show pyStrip (removeFirstTag (removeAllOcc pad (removeAllOcc eos
      (ansTag ++ ans ++ eos)))) = _
    rw [h1, h2, h3]
  obtain ⟨u, v, hdc⟩ := pyStrip_decomp ans
  have hpadans : containsSeq pad ans = false :=
    containsSeq_sub_false pad (ansTag ++ ans) ansTag ans [] (by simp) (by simpa using hpad)
  refine ⟨hres, ?_, ?_, ?_, ?_⟩
  · rw [hres]
    exact pyStrip_noSurround ans
  · rw [hres]
    exact containsSeq_sub_false eos ans u (pyStrip ans) v hdc heosans
  · rw [hres]
    exact containsSeq_sub_false pad ans u (pyStrip ans) v hdc hpadans
  · rw [hres]
    cases hct : containsSeq ansTag (pyStrip ans) with
    | false => rfl
    | true =>
      have hmem : '<' ∈ pyStrip ans :=
        mem_of_containsSeq ansTag (pyStrip ans) (by decide) hct
      exact absurd (mem_of_mem_pyStrip ans hmem) hlt

/-- Witness for C8 (amended) on a well-formed decoded output
`"<s_answer> 42 </s>"`. -/
theorem C8_postprocess_amended_witness :
    postprocess "</s>".toList "<pad>".toList (ansTag ++ " 42 ".toList ++ "</s>".toList) =
      pyStrip " 42 ".toList ∧
    noSurroundWs (postprocess "</s>".toList "<pad>".toList
      (ansTag ++ " 42 ".toList ++ "</s>".toList)) ∧
    containsSeq "</s>".toList (postprocess "</s>".toList "<pad>".toList
      (ansTag ++ " 42 ".toList ++ "</s>".toList)) = false ∧
    containsSeq "<pad>".toList (postprocess "</s>".toList "<pad>".toList
      (ansTag ++ " 42 ".toList ++ "</s>".toList)) = false ∧
    containsSeq ansTag (postprocess "</s>".toList "<pad>".toList
      (ansTag ++ " 42 ".toList ++ "</s>".toList)) = false :=
  C8_postprocess_amended "</s>".toList "<pad>".toList " 42 ".toList
    (by decide) (by decide) (by decide) (by decide) (by decide)
